import Mathlib

/-!
Shallow embedding of `src/baxter_pykdl/baxter_pykdl.py` (class
`baxter_kinematics`).  Scalars are modelled as exact rationals; the
external collaborators (PyKDL solvers, the limb interface supplying
current joint state) are opaque parameters gathered in an `Env`
structure, mirroring the contracts the spec assigns to them in section 6.
Python dictionaries keyed by joint name become `String → Option ℚ`
(a `none` lookup models a `KeyError`), and fallible computations return
`Option`.
-/

namespace BaxterPyKDL

/-- Joint-name-keyed dictionary, as returned by the limb interface
methods `joint_angles` / `joint_velocities` / `joint_efforts` and as
accepted for the `values` argument of `joints_to_kdl`.  A `none` result
models a Python `KeyError` on lookup. -/
abbrev JointDict : Type := String → Option ℚ

/-- The `type` string argument of `joints_to_kdl` restricted to the three
values the code inspects. -/
inductive JKind
  | positions
  | velocities
  | torques

/-- PyKDL `JntArrayVel`: a joint-position array paired with a
joint-velocity array. -/
structure JntArrayVel (n : ℕ) where
  q : Fin n → ℚ
  qdot : Fin n → ℚ

/-- The single-argument KDL constructor `JntArrayVel(q)` used at line 111
of the source: it stores the given array in the position slot and
zero-initialises the velocity slot. -/
def jntArrayVelOfArray {n : ℕ} (a : Fin n → ℚ) : JntArrayVel n :=
  ⟨a, fun _ => 0⟩

/-- KDL `JntArrayVel::value()`, which returns the position member `q`. -/
def JntArrayVel.value {n : ℕ} (v : JntArrayVel n) : Fin n → ℚ :=
  v.q

/-- PyKDL `FrameVel` as far as this code observes it: only the twist
extracted by `GetTwist` (6 scalars: linear and angular velocity). -/
structure FrameVel where
  twistData : Fin 6 → ℚ

/-- PyKDL `FrameVel.GetTwist()`. -/
def FrameVel.GetTwist (f : FrameVel) : Fin 6 → ℚ :=
  f.twistData

/-- The goal pose handed to the IK solver: either `Frame(rot, pos)` when
an orientation quaternion was supplied, or `Frame(pos)` otherwise
(lines 154-157 of the source). -/
inductive Goal
  | withRot (rot : Fin 4 → ℚ) (pos : Fin 3 → ℚ)
  | posOnly (pos : Fin 3 → ℚ)

/-- Opaque collaborators of `baxter_kinematics`, for a chain with `n`
non-fixed joints (`self._num_jnts = n`): the joint-name list of the limb
interface, the current-state dictionaries it serves, and the PyKDL
solvers constructed in `__init__`.  Each solver is modelled as a pure
function, matching the spec's reading of every query as a pure function
of its inputs. -/
structure Env (n : ℕ) where
  jointNames : Fin n → String
  curPositions : JointDict
  curVelocities : JointDict
  curEfforts : JointDict
  fkVelSolver : JntArrayVel n → FrameVel
  ikCartToJnt : List ℚ → Goal → Int × (Fin n → ℚ)
  jacSolver : (Fin n → ℚ) → Matrix (Fin 6) (Fin n) ℚ
  dynSolver : (Fin n → ℚ) → Matrix (Fin n) (Fin n) ℚ

/-- Dictionary selection of `joints_to_kdl` (lines 98-106): the supplied
`values` dictionary when present, otherwise the current values of the
requested kind pulled from the limb interface. -/
def resolveDict {n : ℕ} (e : Env n) (kind : JKind) (values : Option JointDict) :
    JointDict :=
  match values with
  | some v => v
  | none =>
      match kind with
      | .positions => e.curPositions
      | .velocities => e.curVelocities
      | .torques => e.curEfforts

/-- Array-filling loop of `joints_to_kdl` (lines 108-109):
`kdl_array[idx] = cur_type_values[name]` for each joint name in chain
order.  Returns `none` when some name is absent from the dictionary
(Python `KeyError`). -/
def joints_to_kdl {n : ℕ} (e : Env n) (kind : JKind) (values : Option JointDict) :
    Option (Fin n → ℚ) :=
  if h : ∀ i : Fin n, (resolveDict e kind values (e.jointNames i)).isSome then
    some (fun i => (resolveDict e kind values (e.jointNames i)).get (h i))
  else none

/-- Velocity variant of `joints_to_kdl` (lines 110-111): the filled array
is wrapped in a `JntArrayVel` via the single-argument constructor. -/
def joints_to_kdl_vel {n : ℕ} (e : Env n) (values : Option JointDict) :
    Option (JntArrayVel n) :=
  (joints_to_kdl e .velocities values).map jntArrayVelOfArray

/-- Entry-by-entry copy `kdl_to_mat` (lines 114-119). -/
def kdl_to_mat {m k : ℕ} (data : Matrix (Fin m) (Fin k) ℚ) :
    Matrix (Fin m) (Fin k) ℚ :=
  Matrix.of fun i j => data i j

/-- Method `jacobian` (lines 166-169). -/
def jacobian {n : ℕ} (e : Env n) (joint_values : Option JointDict) :
    Option (Matrix (Fin 6) (Fin n) ℚ) :=
  (joints_to_kdl e .positions joint_values).map fun q => kdl_to_mat (e.jacSolver q)

/-- Method `jacobian_transpose` (lines 171-172): `self.jacobian(joint_values).T`. -/
def jacobian_transpose {n : ℕ} (e : Env n) (joint_values : Option JointDict) :
    Option (Matrix (Fin n) (Fin 6) ℚ) :=
  (jacobian e joint_values).map Matrix.transpose

/-- Method `inertia` (lines 177-180). -/
def inertia {n : ℕ} (e : Env n) (joint_values : Option JointDict) :
    Option (Matrix (Fin n) (Fin n) ℚ) :=
  (joints_to_kdl e .positions joint_values).map fun q => kdl_to_mat (e.dynSolver q)

/-- Method `forward_velocity_kinematics` (lines 131-135): builds the
solver input with `joints_to_kdl('velocities', joint_velocities)` and
returns `end_frame.GetTwist()`. -/
def forward_velocity_kinematics {n : ℕ} (e : Env n)
    (joint_velocities : Option JointDict) : Option (Fin 6 → ℚ) :=
  (joints_to_kdl_vel e joint_velocities).map fun jv => (e.fkVelSolver jv).GetTwist

/-- Goal-pose construction of `inverse_kinematics` (lines 139-143 and
154-157): `Frame(rot, pos)` when an orientation is supplied, else
`Frame(pos)`. -/
def goalOf (orientation : Option (Fin 4 → ℚ)) (position : Fin 3 → ℚ) : Goal :=
  match orientation with
  | some o => .withRot o position
  | none => .posOnly position

/-- Return value of `inverse_kinematics`: the joint vector on solver
success, or the Python `None` sentinel on a negative solver status. -/
inductive IkResult
  | success (angles : List ℚ)
  | failure
deriving DecidableEq

/-- Method `inverse_kinematics` (lines 137-164).  A supplied seed is
copied verbatim into a seed array resized to `len(seed)` (lines 146-149,
with no length validation against `n`); an omitted seed falls back to
the current joint positions.  The solver is invoked exactly once and the
result dispatches on the sign of its status code (lines 160-164).  The
outer `none` models the `KeyError` path of the current-positions
fallback. -/
def inverse_kinematics {n : ℕ} (e : Env n) (position : Fin 3 → ℚ)
    (orientation : Option (Fin 4 → ℚ)) (seed : Option (List ℚ)) :
    Option IkResult :=
  let seedArr : Option (List ℚ) :=
    match seed with
    | some s => some s
    | none => (joints_to_kdl e .positions none).map List.ofFn
  match seedArr with
  | none => none
  | some sa =>
      let r := e.ikCartToJnt sa (goalOf orientation position)
      some (if 0 ≤ r.1 then IkResult.success (List.ofFn r.2) else IkResult.failure)

/-- Exact-arithmetic model of `np.linalg.inv`: the matrix inverse, with
`none` modelling the `LinAlgError` raised on a singular input. -/
def npLinalgInv {m : ℕ} (A : Matrix (Fin m) (Fin m) ℚ) :
    Option (Matrix (Fin m) (Fin m) ℚ) :=
  if A.det = 0 then none else some ((A.det)⁻¹ • A.adjugate)

/-- Method `cart_inertia` (lines 182-185):
`inv(jacobian.dot(inv(js_inertia).dot(jacobian.T)))`. -/
def cart_inertia {n : ℕ} (e : Env n) (joint_values : Option JointDict) :
    Option (Matrix (Fin 6) (Fin 6) ℚ) :=
  (inertia e joint_values).bind fun js =>
    (jacobian e joint_values).bind fun jac =>
      (npLinalgInv js).bind fun jsInv =>
        npLinalgInv (jac * (jsInv * jac.transpose))

/-- Fragment of the sympy expression language used by `coriolis_matrix`:
rational constants, the symbols `q1..q7` (variable indices `0..6`) and
`dq1..dq7` (variable indices `7..13`), addition, subtraction and
multiplication. -/
inductive Expr
  | const (c : ℚ)
  | var (i : ℕ)
  | add (a b : Expr)
  | sub (a b : Expr)
  | mul (a b : Expr)
deriving DecidableEq

/-- Symbolic partial derivative with respect to the variable of index
`k`, mirroring sympy `diff`. -/
def Expr.diff : Expr → ℕ → Expr
  | .const _, _ => .const 0
  | .var i, k => .const (if i = k then 1 else 0)
  | .add a b, k => .add (a.diff k) (b.diff k)
  | .sub a b, k => .sub (a.diff k) (b.diff k)
  | .mul a b, k => .add (.mul (a.diff k) b) (.mul a (b.diff k))

/-- Numeric evaluation under a variable assignment, mirroring the
function produced by sympy `lambdify`. -/
def Expr.eval : Expr → (ℕ → ℚ) → ℚ
  | .const c, _ => c
  | .var i, ρ => ρ i
  | .add a b, ρ => a.eval ρ + b.eval ρ
  | .sub a b, ρ => a.eval ρ - b.eval ρ
  | .mul a b, ρ => a.eval ρ * b.eval ρ

/-- Bounds-checked sympy matrix access `M[i, j]`; `none` models the
`IndexError` raised on an out-of-range index. -/
def mget {n : ℕ} (M : Matrix (Fin n) (Fin n) Expr) (i j : ℕ) : Option Expr :=
  if h : i < n ∧ j < n then some (M ⟨i, h.1⟩ ⟨j, h.2⟩) else none

/-- One Christoffel term of `compute_coriolis_matrix` (line 205):
`0.5 * (M[i, j].diff(q[k]) + M[i, k].diff(q[j]) - M[j, k].diff(q[i]))`,
with `q[k]` the position symbol of index `k`. -/
def christoffelTerm {n : ℕ} (M : Matrix (Fin n) (Fin n) Expr) (i j k : ℕ) :
    Option Expr :=
  match mget M i j, mget M i k, mget M j k with
  | some mij, some mik, some mjk =>
      some (.mul (.const (1 / 2)) (.sub (.add (mij.diff k) (mik.diff j)) (mjk.diff i)))
  | _, _, _ => none

/-- One step of the accumulation `c_ij += christoffel * q_dot[k]`
(line 206), where `q_dot[k]` is the velocity symbol of index `7 + k`. -/
def coriolisStep {n : ℕ} (M : Matrix (Fin n) (Fin n) Expr) (i j : ℕ)
    (acc : Option Expr) (k : ℕ) : Option Expr :=
  match acc, christoffelTerm M i j k with
  | some a, some ch => some (.add a (.mul ch (.var (7 + k))))
  | _, _ => none

/-- Entry `(i, j)` of `compute_coriolis_matrix`: the inner `for k in
range(n)` loop of lines 203-207, starting from the integer literal `0`.
The range bound is `len(q) = 7`, fixed by the `symbols('q1:8')` call of
the caller. -/
def coriolisEntry {n : ℕ} (M : Matrix (Fin n) (Fin n) Expr) (i j : ℕ) :
    Option Expr :=
  (List.range 7).foldl (coriolisStep M i j) (some (.const 0))

/-- Method `compute_coriolis_matrix` (lines 198-208), applied as the
caller applies it: `q` and `q_dot` are always the seven fixed symbols
produced by `symbols('q1:8')` and `symbols('dq1:8')`, so the loops run
over `range(7)` while `M` is the `n × n` inertia matrix.  A `none`
result models the `IndexError` raised on the first out-of-range matrix
access. -/
def compute_coriolis_matrix {n : ℕ} (M : Matrix (Fin n) (Fin n) Expr) :
    Option (Matrix (Fin 7) (Fin 7) Expr) :=
  if h : ∀ i j : Fin 7, (coriolisEntry M (i : ℕ) (j : ℕ)).isSome then
    some (Matrix.of fun i j => (coriolisEntry M (i : ℕ) (j : ℕ)).get (h i j))
  else none

/-- Method `coriolis_matrix` (lines 187-196).  The inertia matrix is
first evaluated numerically (`self.inertia(joint_values)`), then every
entry is wrapped as a sympy constant (`Matrix(js_inertia)`), the
symbolic Christoffel computation runs over the seven fixed symbols, and
the lambdified result is applied to the `n` joint positions followed by
the `n` joint velocities.  The arity guard models the `TypeError`
raised by the lambdified function when `2 n ≠ 14`. -/
def coriolis_matrix {n : ℕ} (e : Env n)
    (joint_values joint_velocities : Option JointDict) :
    Option (Matrix (Fin 7) (Fin 7) ℚ) :=
  (inertia e joint_values).bind fun js =>
    (compute_coriolis_matrix (Matrix.of fun i j => Expr.const (js i j))).bind fun C =>
      (joints_to_kdl e .positions joint_values).bind fun qs =>
        (joints_to_kdl_vel e joint_velocities).bind fun dqs =>
          if (List.ofFn qs ++ List.ofFn dqs.value).length = 14 then
            some (Matrix.of fun i j =>
              (C i j).eval fun v => (List.ofFn qs ++ List.ofFn dqs.value).getD v 0)
          else none

/-- Reference Christoffel formula, stated from the spec:
`C[i][j] = Σ_k ½ (∂M[i][j]/∂q_k + ∂M[i][k]/∂q_j − ∂M[j][k]/∂q_i) q̇_k`,
with `M` given symbolically in the joint-position variables,
differentiated analytically and evaluated at the numeric pair
`(qs, dqs)`. -/
def coriolis_matrix_spec (Msym : Matrix (Fin 7) (Fin 7) Expr)
    (qs dqs : Fin 7 → ℚ) : Matrix (Fin 7) (Fin 7) ℚ :=
  Matrix.of fun i j =>
    ∑ k : Fin 7,
      (1 / 2 : ℚ) *
          (((Msym i j).diff (k : ℕ)).eval (fun v => (List.ofFn qs).getD v 0) +
            ((Msym i k).diff (j : ℕ)).eval (fun v => (List.ofFn qs).getD v 0) -
            ((Msym j k).diff (i : ℕ)).eval (fun v => (List.ofFn qs).getD v 0)) *
        dqs k

/-- Symbolic inertia matrix of a concrete example robot: the identity
matrix except that the entry `(0, 0)` is `q1 + 1`, so the inertia
genuinely depends on the first joint position. -/
def MsymEx : Matrix (Fin 7) (Fin 7) Expr :=
  Matrix.of fun i j =>
    if i = 0 ∧ j = 0 then Expr.add (Expr.var 0) (Expr.const 1)
    else if i = j then Expr.const 1 else Expr.const 0

/-- Environment for the example robot of `MsymEx`: its dynamics solver
returns the numeric value of the symbolic inertia at the supplied joint
positions, exactly what PyKDL `JntToMass` provides. -/
def envEx : Env 7 where
  jointNames := fun _ => "j"
  curPositions := fun _ => some 0
  curVelocities := fun _ => some 0
  curEfforts := fun _ => some 0
  fkVelSolver := fun _ => ⟨fun _ => 0⟩
  ikCartToJnt := fun _ _ => (0, fun _ => 0)
  jacSolver := fun _ => 0
  dynSolver := fun qs =>
    Matrix.of fun i j => (MsymEx i j).eval fun v => (List.ofFn qs).getD v 0

/-- Seven-joint environment whose IK solver always reports status `0`
and the constant joint vector `37`. -/
def envIk : Env 7 where
  jointNames := fun _ => "j"
  curPositions := fun _ => some 0
  curVelocities := fun _ => some 0
  curEfforts := fun _ => some 0
  fkVelSolver := fun _ => ⟨fun _ => 0⟩
  ikCartToJnt := fun _ _ => (0, fun _ => 37)
  jacSolver := fun _ => 0
  dynSolver := fun _ => 1

/-- One-joint environment whose FK-velocity solver reports, as the first
twist component, the first joint velocity of its input. -/
def envVel : Env 1 where
  jointNames := fun _ => "j"
  curPositions := fun _ => some 0
  curVelocities := fun _ => some 0
  curEfforts := fun _ => some 0
  fkVelSolver := fun a => ⟨fun _ => a.qdot 0⟩
  ikCartToJnt := fun _ _ => (0, fun _ => 0)
  jacSolver := fun _ => 0
  dynSolver := fun _ => 1

/-- Six-joint environment with identity Jacobian and identity inertia. -/
def envCart : Env 6 where
  jointNames := fun _ => "j"
  curPositions := fun _ => some 0
  curVelocities := fun _ => some 0
  curEfforts := fun _ => some 0
  fkVelSolver := fun _ => ⟨fun _ => 0⟩
  ikCartToJnt := fun _ _ => (0, fun _ => 0)
  jacSolver := fun _ => 1
  dynSolver := fun _ => 1

/-- Six-joint environment with trivial solvers, used to exercise the
`n ≠ 7` behaviour of `coriolis_matrix`. -/
def envSix : Env 6 where
  jointNames := fun _ => "j"
  curPositions := fun _ => some 0
  curVelocities := fun _ => some 0
  curEfforts := fun _ => some 0
  fkVelSolver := fun _ => ⟨fun _ => 0⟩
  ikCartToJnt := fun _ _ => (0, fun _ => 0)
  jacSolver := fun _ => 0
  dynSolver := fun _ => 1

/-- Two-joint environment with distinct joint names. -/
def envTwo : Env 2 where
  jointNames := fun i => if i = 0 then "a" else "b"
  curPositions := fun _ => some 0
  curVelocities := fun _ => some 0
  curEfforts := fun _ => some 0
  fkVelSolver := fun _ => ⟨fun _ => 0⟩
  ikCartToJnt := fun _ _ => (0, fun _ => 0)
  jacSolver := fun _ => 0
  dynSolver := fun _ => 1

/-- Dictionary giving joint `a` the value `3` and every other joint the
value `4`. -/
def dictAB : JointDict := fun s => some (if s = "a" then 3 else 4)

/-- One-joint environment with a nonconstant Jacobian solver. -/
def envJac : Env 1 where
  jointNames := fun _ => "j"
  curPositions := fun _ => some 0
  curVelocities := fun _ => some 0
  curEfforts := fun _ => some 0
  fkVelSolver := fun _ => ⟨fun _ => 0⟩
  ikCartToJnt := fun _ _ => (0, fun _ => 0)
  jacSolver := fun _ => Matrix.of fun i _ => if (i : ℕ) = 0 then 3 else 4
  dynSolver := fun _ => 1

/-- Jacobian value produced by `envJac`. -/
def jacEx : Matrix (Fin 6) (Fin 1) ℚ :=
  Matrix.of fun i _ => if (i : ℕ) = 0 then 3 else 4

/-! Helper lemmas. -/

theorem mget_of_lt {n : ℕ} (M : Matrix (Fin n) (Fin n) Expr) {i j : ℕ}
    (hi : i < n) (hj : j < n) : mget M i j = some (M ⟨i, hi⟩ ⟨j, hj⟩) := by
  unfold mget
  exact dif_pos ⟨hi, hj⟩

theorem mget_none_of_ge {n : ℕ} (M : Matrix (Fin n) (Fin n) Expr) {i j : ℕ}
    (hj : ¬ j < n) : mget M i j = none := by
  unfold mget
  exact dif_neg fun h => hj h.2

theorem christoffelTerm_const {n : ℕ} (js : Matrix (Fin n) (Fin n) ℚ) {i j k : ℕ}
    (hi : i < n) (hj : j < n) (hk : k < n) :
    christoffelTerm (Matrix.of fun a b => Expr.const (js a b)) i j k
      = some (Expr.mul (Expr.const (1 / 2))
          (Expr.sub (Expr.add (Expr.const 0) (Expr.const 0)) (Expr.const 0))) := by
  unfold christoffelTerm
  rw [mget_of_lt _ hi hj, mget_of_lt _ hi hk, mget_of_lt _ hj hk]
  rfl

theorem christoffelTerm_none_mid {n : ℕ} (M : Matrix (Fin n) (Fin n) Expr)
    (i j k : ℕ) (h : mget M i k = none) : christoffelTerm M i j k = none := by
  unfold christoffelTerm
  rw [h]
  cases mget M i j with
  | none => rfl
  | some a => cases mget M j k with
    | none => rfl
    | some b => rfl

theorem coriolisStep_none {n : ℕ} (M : Matrix (Fin n) (Fin n) Expr) (i j k : ℕ) :
    coriolisStep M i j none k = none := rfl

theorem foldl_coriolisStep_none {n : ℕ} (M : Matrix (Fin n) (Fin n) Expr)
    (i j : ℕ) (ks : List ℕ) : ks.foldl (coriolisStep M i j) none = none := by
  induction ks with
  | nil => rfl
  | cons k ks ih => rw [List.foldl_cons, coriolisStep_none]; exact ih

theorem foldl_none_of_mem {n : ℕ} (M : Matrix (Fin n) (Fin n) Expr) (i j : ℕ)
    (ks : List ℕ) :
    ∀ a : Expr, (∃ k ∈ ks, christoffelTerm M i j k = none) →
      ks.foldl (coriolisStep M i j) (some a) = none := by
  induction ks with
  | nil =>
      rintro a ⟨k, hk, _⟩
      exact absurd hk (List.not_mem_nil k)
  | cons k0 ks ih =>
      rintro a ⟨k, hk, hnone⟩
      rw [List.foldl_cons]
      by_cases h0 : christoffelTerm M i j k0 = none
      · have hs : coriolisStep M i j (some a) k0 = none := by
          unfold coriolisStep
          rw [h0]
        rw [hs]
        exact foldl_coriolisStep_none M i j ks
      · rcases List.mem_cons.mp hk with rfl | hmem
        · exact absurd hnone h0
        · rcases hch : christoffelTerm M i j k0 with _ | ch
          · exact absurd hch h0
          · have hs : coriolisStep M i j (some a) k0
                = some (Expr.add a (Expr.mul ch (Expr.var (7 + k0)))) := by
              unfold coriolisStep
              rw [hch]
            rw [hs]
            exact ih _ ⟨k, hmem, hnone⟩

theorem foldl_coriolisStep_const {n : ℕ} (js : Matrix (Fin n) (Fin n) ℚ)
    {i j : ℕ} (hi : i < n) (hj : j < n) (ks : List ℕ) :
    ∀ a : Expr, (∀ k ∈ ks, k < n) → (∀ ρ, a.eval ρ = 0) →
      ∃ ex, ks.foldl (coriolisStep (Matrix.of fun x y => Expr.const (js x y)) i j)
              (some a) = some ex ∧ ∀ ρ, ex.eval ρ = 0 := by
  induction ks with
  | nil =>
      intro a _ ha
      exact ⟨a, rfl, ha⟩
  | cons k ks ih =>
      intro a hks ha
      have hk : k < n := hks k (List.mem_cons_self k ks)
      have hs : coriolisStep (Matrix.of fun x y => Expr.const (js x y)) i j (some a) k
          = some (Expr.add a (Expr.mul
              (Expr.mul (Expr.const (1 / 2))
                (Expr.sub (Expr.add (Expr.const 0) (Expr.const 0)) (Expr.const 0)))
              (Expr.var (7 + k)))) := by
        unfold coriolisStep
        rw [christoffelTerm_const js hi hj hk]
      rw [List.foldl_cons, hs]
      refine ih _ (fun x hx => hks x (List.mem_cons_of_mem _ hx)) ?_
      intro ρ
      simp [Expr.eval, ha ρ]

theorem coriolisEntry_const {n : ℕ} (js : Matrix (Fin n) (Fin n) ℚ)
    (i j : ℕ) (hi : i < n) (hj : j < n) (h7 : 7 ≤ n) :
    ∃ ex, coriolisEntry (Matrix.of fun x y => Expr.const (js x y)) i j = some ex
      ∧ ∀ ρ, ex.eval ρ = 0 := by
  unfold coriolisEntry
  exact foldl_coriolisStep_const js hi hj (List.range 7) (Expr.const 0)
    (fun k hk => lt_of_lt_of_le (List.mem_range.mp hk) h7) (fun ρ => rfl)

theorem compute_coriolis_matrix_const {n : ℕ} (js : Matrix (Fin n) (Fin n) ℚ)
    (h7 : 7 ≤ n) :
    ∃ C, compute_coriolis_matrix (Matrix.of fun x y => Expr.const (js x y)) = some C
      ∧ ∀ (i j : Fin 7) (ρ : ℕ → ℚ), (C i j).eval ρ = 0 := by
  have hall : ∀ i j : Fin 7,
      (coriolisEntry (Matrix.of fun x y => Expr.const (js x y)) (i : ℕ) (j : ℕ)).isSome := by
    intro i j
    obtain ⟨ex, hex, _⟩ := coriolisEntry_const js (i : ℕ) (j : ℕ)
      (lt_of_lt_of_le i.isLt h7) (lt_of_lt_of_le j.isLt h7) h7
    rw [hex]
    rfl
  refine ⟨Matrix.of fun i j =>
      (coriolisEntry (Matrix.of fun x y => Expr.const (js x y)) (i : ℕ) (j : ℕ)).get
        (hall i j), ?_, ?_⟩
  · unfold compute_coriolis_matrix
    rw [dif_pos hall]
  · intro i j ρ
    obtain ⟨ex, hex, hz⟩ := coriolisEntry_const js (i : ℕ) (j : ℕ)
      (lt_of_lt_of_le i.isLt h7) (lt_of_lt_of_le j.isLt h7) h7
    have h1 : some ((coriolisEntry (Matrix.of fun x y => Expr.const (js x y))
        (i : ℕ) (j : ℕ)).get (hall i j)) = some ex :=
      (Option.some_get (hall i j)).trans hex
    simp only [Matrix.of_apply]
    rw [Option.some_inj.mp h1]
    exact hz ρ

theorem joints_to_kdl_total {n : ℕ} (e : Env n) (kind : JKind) (f : String → ℚ) :
    joints_to_kdl e kind (some fun s => some (f s))
      = some fun i => f (e.jointNames i) := by
  unfold joints_to_kdl
  have h : ∀ i : Fin n,
      (resolveDict e kind (some fun s => some (f s)) (e.jointNames i)).isSome :=
    fun i => rfl
  rw [dif_pos h]
  rfl

theorem coriolis_total_eq_zero (e : Env 7) (qf vf : String → ℚ) :
    coriolis_matrix e (some fun s => some (qf s)) (some fun s => some (vf s))
      = some 0 := by
  have hq := joints_to_kdl_total e .positions qf
  have hv := joints_to_kdl_total e .velocities vf
  have hi : inertia e (some fun s => some (qf s))
      = some (kdl_to_mat (e.dynSolver fun i => qf (e.jointNames i))) := by
    unfold inertia
    rw [hq]
    rfl
  obtain ⟨C, hC, hz⟩ := compute_coriolis_matrix_const
    (kdl_to_mat (e.dynSolver fun i => qf (e.jointNames i))) (le_refl 7)
  unfold coriolis_matrix
  rw [hi, Option.some_bind, hC, Option.some_bind, hq, Option.some_bind]
  unfold joints_to_kdl_vel
  rw [hv]
  simp only [Option.map_some', Option.some_bind]
  rw [if_pos (by simp)]
  congr 1
  ext i j
  simp only [Matrix.of_apply, Matrix.zero_apply]
  exact hz i j _

theorem coriolisEntry_none_of_small {n : ℕ} (M : Matrix (Fin n) (Fin n) Expr)
    (hn : n < 7) : coriolisEntry M 0 0 = none := by
  unfold coriolisEntry
  refine foldl_none_of_mem M 0 0 (List.range 7) (Expr.const 0)
    ⟨n, List.mem_range.mpr hn, ?_⟩
  exact christoffelTerm_none_mid M 0 0 n (mget_none_of_ge M (lt_irrefl n))

theorem npLinalgInv_of_det_ne_zero {m : ℕ} (A : Matrix (Fin m) (Fin m) ℚ)
    (h : A.det ≠ 0) : npLinalgInv A = some A⁻¹ := by
  unfold npLinalgInv
  rw [if_neg h, Matrix.inv_def, Ring.inverse_eq_inv]

/-! Claim theorems. -/

/-- Claim C1 (code bug): `coriolis_matrix` evaluates the inertia matrix
numerically before the symbolic differentiation, so every Christoffel
partial derivative vanishes and the method returns the zero matrix even
for a robot whose inertia depends on the joint positions; the
spec formula applied to the same robot's symbolic inertia gives the
nonzero entry `C[0][0] = 1/2` at `q = 0`, `q̇ = 1`. -/
theorem coriolis_matrix_numeric_inertia_zero :
    coriolis_matrix envEx (some fun _ => some 0) (some fun _ => some 1) = some 0
      ∧ coriolis_matrix_spec MsymEx (fun _ => 0) (fun _ => 1) 0 0 = 1 / 2
      ∧ (1 / 2 : ℚ) ≠ 0 := by
  refine ⟨coriolis_total_eq_zero envEx (fun _ => 0) (fun _ => 1), ?_, by norm_num⟩
  have h3 : ((3 : Fin 7) : ℕ) = 3 := rfl
  have h4 : ((4 : Fin 7) : ℕ) = 4 := rfl
  have h5 : ((5 : Fin 7) : ℕ) = 5 := rfl
  have h6 : ((6 : Fin 7) : ℕ) = 6 := rfl
  simp [coriolis_matrix_spec, Fin.sum_univ_seven, MsymEx, Expr.diff, Expr.eval,
    h3, h4, h5, h6]

/-- Claim C6: the numeric result of `coriolis_matrix` does not depend on
the supplied joint velocities, because the inertia matrix is reduced to
numeric constants before differentiation. -/
theorem coriolis_matrix_velocity_independent (e : Env 7)
    (qf v1 v2 : String → ℚ) :
    coriolis_matrix e (some fun s => some (qf s)) (some fun s => some (v1 s))
      = coriolis_matrix e (some fun s => some (qf s)) (some fun s => some (v2 s)) := by
  rw [coriolis_total_eq_zero, coriolis_total_eq_zero]

/-- Claim C7: `coriolis_matrix` fixes seven symbolic position and seven
velocity variables, so for a chain with `n ≠ 7` joints the call fails
(index error of the symbolic loop for `n < 7`, arity error of the
lambdified function for `n > 7`) instead of returning an `n × n`
matrix. -/
theorem coriolis_matrix_requires_seven (n : ℕ) (hn : n ≠ 7) (e : Env n)
    (joint_values joint_velocities : Option JointDict) :
    coriolis_matrix e joint_values joint_velocities = none := by
  unfold coriolis_matrix
  cases hI : inertia e joint_values with
  | none => rfl
  | some js =>
      rw [Option.some_bind]
      rcases Nat.lt_or_ge n 7 with hlt | hge
      · have hnc : ¬ ∀ i j : Fin 7,
            (coriolisEntry (Matrix.of fun a b => Expr.const (js a b))
              (i : ℕ) (j : ℕ)).isSome := by
          intro hall
          have h00 := hall 0 0
          rw [Fin.val_zero, coriolisEntry_none_of_small _ hlt] at h00
          exact absurd h00 (by simp)
        have hcomp : compute_coriolis_matrix
            (Matrix.of fun i j => Expr.const (js i j)) = none := by
          unfold compute_coriolis_matrix
          rw [dif_neg hnc]
        rw [hcomp]
        rfl
      · obtain ⟨C, hC, _⟩ := compute_coriolis_matrix_const js hge
        rw [hC, Option.some_bind]
        cases hq : joints_to_kdl e .positions joint_values with
        | none => rfl
        | some qs =>
            rw [Option.some_bind]
            cases hv : joints_to_kdl_vel e joint_velocities with
            | none => rfl
            | some dqs =>
                rw [Option.some_bind, if_neg]
                simp only [List.length_append, List.length_ofFn]
                omega

/-- Witness for claim C7 at the concrete chain size `n = 6`. -/
theorem coriolis_matrix_requires_seven_witness :
    (6 ≠ 7) ∧ coriolis_matrix envSix (some fun _ => some 0) (some fun _ => some 0)
      = none :=
  ⟨by decide, coriolis_matrix_requires_seven 6 (by decide) envSix
    (some fun _ => some 0) (some fun _ => some 0)⟩

/-- Claim C8: at the zero joint-velocity vector `coriolis_matrix`
returns the zero matrix, for every joint-position assignment and every
inertia provided by the dynamics solver. -/
theorem coriolis_matrix_zero_velocity (e : Env 7) (qf : String → ℚ) :
    coriolis_matrix e (some fun s => some (qf s)) (some fun _ => some 0)
      = some 0 :=
  coriolis_total_eq_zero e qf fun _ => 0

/-- Claim C2 (code bug): `forward_velocity_kinematics` accepts no
joint-position argument and wraps the resolved joint velocities with the
single-argument `JntArrayVel` constructor, which zeroes the velocity
slot of the solver input; under the FK-velocity solver contract (zero
joint velocity gives zero twist), every defined result is therefore the
zero twist, not the twist of the supplied position+velocity pair. -/
theorem forward_velocity_qdot_zero {n : ℕ} (e : Env n)
    (hzero : ∀ a : Fin n → ℚ,
      (e.fkVelSolver (jntArrayVelOfArray a)).GetTwist = fun _ => 0)
    (joint_velocities : Option JointDict) (t : Fin 6 → ℚ)
    (ht : forward_velocity_kinematics e joint_velocities = some t) :
    t = fun _ => 0 := by
  unfold forward_velocity_kinematics joints_to_kdl_vel at ht
  cases hq : joints_to_kdl e .velocities joint_velocities with
  | none =>
      rw [hq] at ht
      exact absurd ht (by simp)
  | some arr =>
      rw [hq] at ht
      simp only [Option.map_some', Option.some_inj] at ht
      rw [← ht]
      exact hzero arr

/-- Witness for claim C2: a one-joint chain whose solver reports the
joint velocity as twist; with all joint velocities equal to `5` the
method still returns the zero twist. -/
theorem forward_velocity_qdot_zero_witness :
    forward_velocity_kinematics envVel (some fun _ => some 5)
        = some (fun _ => 0)
      ∧ (fun _ : Fin 6 => (0 : ℚ)) = fun _ => 0 :=
  ⟨by decide, forward_velocity_qdot_zero envVel (fun _ => rfl)
    (some fun _ => some 5) (fun _ => 0) (by decide)⟩

/-- Claim C3 counterexample: with a seed of length `3` on a seven-joint
chain, `inverse_kinematics` does not fail with any seed error — it
proceeds to the solver and returns its joint vector. -/
theorem inverse_kinematics_short_seed_proceeds :
    (([1, 2, 3] : List ℚ).length ≠ 7)
      ∧ inverse_kinematics envIk (fun _ => 0) none (some [1, 2, 3])
          = some (IkResult.success (List.ofFn fun _ : Fin 7 => (37 : ℚ))) := by
  exact ⟨by decide, rfl⟩

/-- Claim C3 (amended): `inverse_kinematics` performs no seed-length
validation; even when the seed length differs from the joint count the
seed array is resized to the seed's length, filled with the seed
verbatim, handed to the solver, and the solver's outcome is returned. -/
theorem inverse_kinematics_no_seed_validation {n : ℕ} (e : Env n)
    (position : Fin 3 → ℚ) (orientation : Option (Fin 4 → ℚ))
    (s : List ℚ) (_hlen : s.length ≠ n) :
    inverse_kinematics e position orientation (some s)
      = some (if 0 ≤ (e.ikCartToJnt s (goalOf orientation position)).1
              then IkResult.success
                (List.ofFn (e.ikCartToJnt s (goalOf orientation position)).2)
              else IkResult.failure) := rfl

/-- Witness for claim C3's amended statement at a concrete length-3 seed
on a seven-joint chain. -/
theorem inverse_kinematics_no_seed_validation_witness :
    inverse_kinematics envIk (fun _ => 0) none (some [1, 2, 3])
      = some (if 0 ≤ (envIk.ikCartToJnt [1, 2, 3] (goalOf none fun _ => 0)).1
              then IkResult.success
                (List.ofFn (envIk.ikCartToJnt [1, 2, 3] (goalOf none fun _ => 0)).2)
              else IkResult.failure) :=
  inverse_kinematics_no_seed_validation envIk (fun _ => 0) none [1, 2, 3]
    (by decide)

/-- Claim C4: with a supplied seed, `inverse_kinematics` returns the
`None` sentinel exactly when the solver status is negative, and the
solver's joint vector when the status is non-negative; the solver is
invoked once with the given seed and goal, with no retry. -/
theorem inverse_kinematics_status_dispatch {n : ℕ} (e : Env n)
    (position : Fin 3 → ℚ) (orientation : Option (Fin 4 → ℚ)) (s : List ℚ) :
    (inverse_kinematics e position orientation (some s) = some IkResult.failure
        ↔ (e.ikCartToJnt s (goalOf orientation position)).1 < 0)
      ∧ inverse_kinematics e position orientation (some s)
          = some (if 0 ≤ (e.ikCartToJnt s (goalOf orientation position)).1
                  then IkResult.success
                    (List.ofFn (e.ikCartToJnt s (goalOf orientation position)).2)
                  else IkResult.failure) := by
  refine ⟨?_, rfl⟩
  rw [show inverse_kinematics e position orientation (some s)
      = some (if 0 ≤ (e.ikCartToJnt s (goalOf orientation position)).1
              then IkResult.success
                (List.ofFn (e.ikCartToJnt s (goalOf orientation position)).2)
              else IkResult.failure) from rfl]
  by_cases h : 0 ≤ (e.ikCartToJnt s (goalOf orientation position)).1
  · rw [if_pos h]
    exact iff_of_false (by simp) (by omega)
  · rw [if_neg h]
    exact iff_of_true rfl (by omega)

/-- Claim C5: `cart_inertia` equals `(J M⁻¹ Jᵀ)⁻¹` with the Jacobian `J`
and joint-space inertia `M` taken at the same resolved configuration,
whenever `M` and `J M⁻¹ Jᵀ` are invertible. -/
theorem cart_inertia_formula {n : ℕ} (e : Env n) (joint_values : Option JointDict)
    (q : Fin n → ℚ) (hq : joints_to_kdl e .positions joint_values = some q)
    (hm : (e.dynSolver q).det ≠ 0)
    (hj : (e.jacSolver q * (e.dynSolver q)⁻¹ * (e.jacSolver q).transpose).det ≠ 0) :
    cart_inertia e joint_values
      = some ((e.jacSolver q * (e.dynSolver q)⁻¹ * (e.jacSolver q).transpose)⁻¹) := by
  have hi : inertia e joint_values = some (e.dynSolver q) := by
    unfold inertia
    rw [hq]
    rfl
  have hja : jacobian e joint_values = some (e.jacSolver q) := by
    unfold jacobian
    rw [hq]
    rfl
  have hassoc : e.jacSolver q * ((e.dynSolver q)⁻¹ * (e.jacSolver q).transpose)
      = e.jacSolver q * (e.dynSolver q)⁻¹ * (e.jacSolver q).transpose := by
    rw [Matrix.mul_assoc]
  unfold cart_inertia
  rw [hi, Option.some_bind, hja, Option.some_bind,
    npLinalgInv_of_det_ne_zero _ hm, Option.some_bind, hassoc]
  exact npLinalgInv_of_det_ne_zero _ hj

/-- Witness for claim C5 on a six-joint chain with identity Jacobian and
identity inertia. -/
theorem cart_inertia_formula_witness :
    cart_inertia envCart (some fun _ => some 0)
      = some ((envCart.jacSolver (fun _ => 0) * (envCart.dynSolver (fun _ => 0))⁻¹
          * (envCart.jacSolver (fun _ => 0)).transpose)⁻¹) := by
  have h1 : envCart.dynSolver (fun _ => 0) = (1 : Matrix (Fin 6) (Fin 6) ℚ) := rfl
  have h2 : envCart.jacSolver (fun _ => 0) = (1 : Matrix (Fin 6) (Fin 6) ℚ) := rfl
  refine cart_inertia_formula envCart (some fun _ => some 0) (fun _ => 0)
    (joints_to_kdl_total envCart .positions fun _ => 0) ?_ ?_
  · rw [h1]
    simp
  · rw [h1, h2]
    simp

/-- Claim C9: `joints_to_kdl` fails exactly when some required joint name
is absent from the resolved dictionary (the supplied values, or the
current values of the requested kind when omitted), and otherwise
returns the vector of looked-up values in chain order. -/
theorem joints_to_kdl_lookup_spec {n : ℕ} (e : Env n) (kind : JKind)
    (values : Option JointDict) :
    (joints_to_kdl e kind values = none
        ↔ ∃ i : Fin n, resolveDict e kind values (e.jointNames i) = none)
      ∧ ∀ arr, joints_to_kdl e kind values = some arr →
          ∀ i : Fin n, some (arr i) = resolveDict e kind values (e.jointNames i) := by
  unfold joints_to_kdl
  by_cases h : ∀ i : Fin n, (resolveDict e kind values (e.jointNames i)).isSome
  · rw [dif_pos h]
    refine ⟨⟨fun hc => absurd hc (by simp), ?_⟩, ?_⟩
    · rintro ⟨i, hi⟩
      have := h i
      rw [hi] at this
      exact absurd this (by simp)
    · intro arr harr i
      rw [← Option.some_inj.mp harr]
      exact Option.some_get (h i)
  · rw [dif_neg h]
    refine ⟨⟨fun _ => ?_, fun _ => rfl⟩, fun arr harr => absurd harr (by simp)⟩
    obtain ⟨i, hi⟩ := not_forall.mp h
    exact ⟨i, Option.not_isSome_iff_eq_none.mp hi⟩

/-- Witness for claim C9 on a two-joint chain whose values dictionary
maps joint `a` to `3` and joint `b` to `4`. -/
theorem joints_to_kdl_lookup_spec_witness :
    some ((fun i : Fin 2 => if envTwo.jointNames i = "a" then (3 : ℚ) else 4) 0)
      = resolveDict envTwo .positions (some dictAB) (envTwo.jointNames 0) :=
  (joints_to_kdl_lookup_spec envTwo .positions (some dictAB)).2
    (fun i : Fin 2 => if envTwo.jointNames i = "a" then (3 : ℚ) else 4)
    (joints_to_kdl_total envTwo .positions fun s => if s = "a" then 3 else 4) 0

/-- Claim C10: `jacobian_transpose` is the transpose of `jacobian` at the
same configuration, a pure derived view. -/
theorem jacobian_transpose_is_transpose {n : ℕ} (e : Env n)
    (joint_values : Option JointDict) (J : Matrix (Fin 6) (Fin n) ℚ)
    (hJ : jacobian e joint_values = some J) :
    jacobian_transpose e joint_values = some J.transpose := by
  unfold jacobian_transpose
  rw [hJ]
  rfl

/-- Witness for claim C10 on a one-joint chain with a concrete nonzero
Jacobian. -/
theorem jacobian_transpose_is_transpose_witness :
    jacobian_transpose envJac (some fun _ => some 0) = some jacEx.transpose :=
  jacobian_transpose_is_transpose envJac (some fun _ => some 0) jacEx (by decide)

end BaxterPyKDL
